import Mathlib

/-!
Shallow embedding of the IFC STEP → BOT (Turtle) adapter (`src/adapter.py`)
and verification of its specification claims.

Modelling conventions:
* Python strings are Lean `String`s; regular-expression character classes
  (`\d`, `\s`, `\w`) are modelled on the ASCII range, which is the range the
  IFC STEP format uses.
* Python `dict`s (which preserve insertion order and overwrite values in
  place) are modelled as association lists with an order-preserving
  insert/append operation.
* The regex scans (`finditer`, `findall`, `match`) are deterministic for the
  concrete patterns used by the adapter, and are embedded as explicit
  character-list scanners; unbounded left-to-right restarting scans use a
  fuel parameter (always called with fuel = length of the input, which is
  sufficient since every step consumes at least one character).
-/

namespace IfcAdapter

/-- ASCII decimal digit, the `\d` class restricted to ASCII. -/
def isDigitChar (c : Char) : Bool := '0' ≤ c && c ≤ '9'

/-- ASCII whitespace, the `\s` class restricted to ASCII. -/
def isSpaceChar (c : Char) : Bool :=
  c == ' ' || c == '\t' || c == '\n' || c == '\r' || c == '\x0b' || c == '\x0c'

/-- ASCII word character, the `\w` class restricted to ASCII. -/
def isWordChar (c : Char) : Bool := c.isAlpha || isDigitChar c || c == '_'

/-- Python `str.upper()` on the ASCII range: uppercase every character. -/
def strUpper (s : String) : String := String.mk (s.data.map Char.toUpper)

/-- Value of a decimal digit string (Python `int(...)` on the matched digits). -/
def digitsToNat (ds : List Char) : Nat :=
  ds.foldl (fun a c => 10 * a + (c.toNat - '0'.toNat)) 0

/-- Association-list lookup (first match), modelling Python `dict` lookup. -/
def lookupA {κ α : Type} [DecidableEq κ] : List (κ × α) → κ → Option α
  | [], _ => none
  | (k, v) :: rest, s => if k = s then some v else lookupA rest s

/-- STEP 1.1 — IFC spatial entities → BOT zone classes (`IFC_TO_BOT_ZONE`). -/
def IFC_TO_BOT_ZONE : List (String × String) :=
  [("IFCSITE", "bot:Site"),
   ("IFCBUILDING", "bot:Building"),
   ("IFCBUILDINGSTOREY", "bot:Storey"),
   ("IFCSPACE", "bot:Space")]

/-- STEP 1.2 — IFC element entities → `bot:Element` (`IFC_TO_BOT_ELEMENT`). -/
def IFC_TO_BOT_ELEMENT : List (String × String) :=
  [("IFCWALL", "bot:Element"),
   ("IFCWALLSTANDARDCASE", "bot:Element"),
   ("IFCSLAB", "bot:Element"),
   ("IFCBEAM", "bot:Element"),
   ("IFCCOLUMN", "bot:Element"),
   ("IFCDOOR", "bot:Element"),
   ("IFCWINDOW", "bot:Element"),
   ("IFCPLATE", "bot:Element"),
   ("IFCFURNISHINGELEMENT", "bot:Element"),
   ("IFCSTAIR", "bot:Element"),
   ("IFCSTAIRFLIGHT", "bot:Element"),
   ("IFCFLOWTERMINAL", "bot:Element")]

/-- STEP 1.3 — IFC relationship types → BOT property roles (`IFC_REL_TO_BOT_PROP`). -/
def IFC_REL_TO_BOT_PROP : List (String × String) :=
  [("IFCRELAGGREGATES", "bot:containsZone_or_hasSubElement"),
   ("IFCRELCONTAINEDINSPATIALSTRUCTURE", "bot:containsElement"),
   ("IFCRELCONNECTSELEMENTS", "bot:adjacentElement"),
   ("IFCRELINTERFERESELEMENTS", "bot:intersectingElement")]

/-- All IFC types we care about (`IFC_TYPES_OF_INTEREST`): union of the keys of
the three mapping tables plus the root type `IFCPROJECT`. -/
def IFC_TYPES_OF_INTEREST : List String :=
  (IFC_TO_BOT_ZONE.map Prod.fst) ++ (IFC_TO_BOT_ELEMENT.map Prod.fst) ++
    (IFC_REL_TO_BOT_PROP.map Prod.fst) ++ ["IFCPROJECT"]

/-- Boolean membership test in the types-of-interest set. -/
def isOfInterest (t : String) : Bool := IFC_TYPES_OF_INTEREST.contains t

/-- The non-greedy tail `(.*?)\);` of the record regex: splits the input at the
first occurrence of the two-character sequence `);`, returning the argument
text before it and the remainder after it; `none` when no `);` occurs. -/
def findArgs : List Char → Option (List Char × List Char)
  | ')' :: ';' :: rest => some ([], rest)
  | c :: rest =>
    match findArgs rest with
    | some (args, after) => some (c :: args, after)
    | none => none
  | [] => none

/-- One attempt of the record regex `#(\d+)\s*=\s*(\w+)\s*\((.*?)\);`
(IGNORECASE, DOTALL) anchored at the given position.  The pattern is
deterministic: greedy `\d+`/`\s*`/`\w+` runs cannot be usefully backtracked
because each is followed by a character outside its own class, and the
non-greedy `(.*?)\);` stops at the first `);`.  On success, returns
(numeric id, type identifier uppercased as in the Python code, argument text,
remaining input after the match). -/
def matchRecordFrom (cs : List Char) : Option (Nat × String × String × List Char) :=
  match cs with
  | '#' :: cs1 =>
    let ds := cs1.takeWhile isDigitChar
    if ds.isEmpty then none else
    match (cs1.dropWhile isDigitChar).dropWhile isSpaceChar with
    | '=' :: cs3 =>
      let cs4 := cs3.dropWhile isSpaceChar
      let ident := cs4.takeWhile isWordChar
      if ident.isEmpty then none else
      match (cs4.dropWhile isWordChar).dropWhile isSpaceChar with
      | '(' :: cs6 =>
        match findArgs cs6 with
        | some (args, after) => some (digitsToNat ds, strUpper (String.mk ident), String.mk args, after)
        | none => none
      | _ => none
    | _ => none
  | _ => none

/-- The `finditer` loop of `scan_ifc_and_extract_lines`, with the
types-of-interest filter applied inline exactly as in the Python loop body:
try a match at the current position; on success emit the record if its
(uppercased) type is of interest and continue after the match, otherwise
continue one character further.  `fuel` bounds the recursion and is always
supplied as the length of the input, which suffices because each step consumes
at least one character. -/
def scanAux : Nat → List Char → List (Nat × String × String)
  | 0, _ => []
  | _ + 1, [] => []
  | fuel + 1, c :: rest =>
    match matchRecordFrom (c :: rest) with
    | some (ent_id, ent_type, args, after) =>
      if isOfInterest ent_type then (ent_id, ent_type, args) :: scanAux fuel after
      else scanAux fuel after
    | none => scanAux fuel rest

/-- STEP 2 — `scan_ifc_and_extract_lines`: scan the IFC STEP text and extract
only the records `#<id> = <IFCTYPE>(<args>);` whose type is of interest. -/
def scan_ifc_and_extract_lines (ifc_text : String) : List (Nat × String × String) :=
  scanAux ifc_text.data.length ifc_text.data

/-- The same scan loop without the types-of-interest filter: the sequence of
all matches of the record regex, in source order (the raw `finditer` stream). -/
def rawScanAux : Nat → List Char → List (Nat × String × String)
  | 0, _ => []
  | _ + 1, [] => []
  | fuel + 1, c :: rest =>
    match matchRecordFrom (c :: rest) with
    | some (ent_id, ent_type, args, after) => (ent_id, ent_type, args) :: rawScanAux fuel after
    | none => rawScanAux fuel rest

/-- All matches of the record regex in the text, in source order. -/
def rawScan (ifc_text : String) : List (Nat × String × String) :=
  rawScanAux ifc_text.data.length ifc_text.data

/-- STEP 3 — Neutral representation of an IFC entity (`IfcEntity`). -/
structure IfcEntity where
  id : Nat
  type : String
  name : String
  global_id : String
deriving DecidableEq

/-- The `IfcEntity` constructor: as in the Python `__init__`, the type is
uppercased and name/global id default to the given strings. -/
def IfcEntity.make (ent_id : Nat) (ent_type name global_id : String) : IfcEntity :=
  ⟨ent_id, strUpper ent_type, name, global_id⟩

/-- STEP 3 — Neutral representation of an IFC relationship (`IfcRelationship`). -/
structure IfcRelationship where
  id : Nat
  type : String
  parent_id : Nat
  child_ids : List Nat
deriving DecidableEq

/-- The `IfcRelationship` constructor: uppercases the type as in Python. -/
def IfcRelationship.make (rel_id : Nat) (rel_type : String)
    (parent_id : Nat) (child_ids : List Nat) : IfcRelationship :=
  ⟨rel_id, strUpper rel_type, parent_id, child_ids⟩

/-- The anchored entity-argument regex `'([^']*)'\s*,\s*'([^']*)'` applied with
`re.match` (anchored at the start of the argument text).  Deterministic:
`[^']*` is exactly the run of characters up to the next single quote, and the
greedy `\s*` runs cannot be backtracked usefully.  Returns the two captured
groups on success. -/
def matchTwoQuoted : List Char → Option (List Char × List Char)
  | '\'' :: cs =>
    let g := cs.takeWhile (fun c => c ≠ '\'')
    match cs.dropWhile (fun c => c ≠ '\'') with
    | '\'' :: cs2 =>
      match cs2.dropWhile isSpaceChar with
      | ',' :: cs3 =>
        match cs3.dropWhile isSpaceChar with
        | '\'' :: cs4 =>
          let n := cs4.takeWhile (fun c => c ≠ '\'')
          match cs4.dropWhile (fun c => c ≠ '\'') with
          | '\'' :: _ => some (g, n)
          | _ => none
        | _ => none
      | _ => none
    | _ => none
  | _ => none

/-- Entity argument extraction of the parser: the anchored two-quoted-literal
match, giving (global_id, name); both default to the empty string when the
pattern is absent. -/
def parseEntityArgs (args : String) : String × String :=
  match matchTwoQuoted args.data with
  | some (g, n) => (String.mk g, String.mk n)
  | none => ("", "")

/-- The `re.findall(r"#(\d+)", args)` scan: every `#<digits>` occurrence, in
order of appearance, each converted to a number.  Fueled scanner; each step
consumes at least one character, and fuel is always supplied as the input
length. -/
def findRefsAux : Nat → List Char → List Nat
  | 0, _ => []
  | _ + 1, [] => []
  | fuel + 1, c :: rest =>
    if c = '#' then
      let ds := rest.takeWhile isDigitChar
      if ds.isEmpty then findRefsAux fuel rest
      else digitsToNat ds :: findRefsAux fuel (rest.dropWhile isDigitChar)
    else findRefsAux fuel rest

/-- All `#<digits>` references in the string, in order of appearance. -/
def findRefs (args : String) : List Nat := findRefsAux args.data.length args.data

/-- Order-preserving insert-or-overwrite on the entity association list,
modelling `entities[ent_id] = ...` on a Python dict: an existing key keeps its
position and gets the new value; a new key is appended at the end. -/
def dictInsert : List (Nat × IfcEntity) → Nat → IfcEntity → List (Nat × IfcEntity)
  | [], k, v => [(k, v)]
  | (k', v') :: rest, k, v =>
    if k' = k then (k', v) :: rest else (k', v') :: dictInsert rest k v

/-- Boolean test for the parser's CASE A guard:
`ent_type in IFC_TO_BOT_ZONE or ent_type in IFC_TO_BOT_ELEMENT or ent_type == "IFCPROJECT"`. -/
def isEntityType (t : String) : Bool :=
  (lookupA IFC_TO_BOT_ZONE t).isSome || (lookupA IFC_TO_BOT_ELEMENT t).isSome || t == "IFCPROJECT"

/-- Boolean test for the parser's CASE B guard: `ent_type in IFC_REL_TO_BOT_PROP`. -/
def isRelType (t : String) : Bool := (lookupA IFC_REL_TO_BOT_PROP t).isSome

/-- The entity built by the parser from one selected line (CASE A body). -/
def entityOfLine (l : Nat × String × String) : IfcEntity :=
  let (g, n) := parseEntityArgs l.2.2
  IfcEntity.make l.1 l.2.1 n g

/-- One step of the parser's loop over the selected lines, threading the
(entities, relationships) state. -/
def parseStep (acc : List (Nat × IfcEntity) × List IfcRelationship)
    (l : Nat × String × String) : List (Nat × IfcEntity) × List IfcRelationship :=
  if isEntityType l.2.1 then
    (dictInsert acc.1 l.1 (entityOfLine l), acc.2)
  else if isRelType l.2.1 then
    match findRefs l.2.2 with
    | n0 :: n1 :: ns => (acc.1, acc.2 ++ [IfcRelationship.make l.1 l.2.1 n0 (n1 :: ns)])
    | _ => acc
  else acc

/-- STEP 3 — `parse_selected_ifc_lines`: parse the selected lines into the
entity mapping (id → IfcEntity, insertion-ordered) and the relationship list. -/
def parse_selected_ifc_lines (lines : List (Nat × String × String)) :
    List (Nat × IfcEntity) × List IfcRelationship :=
  lines.foldl parseStep ([], [])

/-- STEP 4 — `classify_ifc_entity`: map an IfcEntity to a BOT class or none,
zone lookup first, then element lookup. -/
def classify_ifc_entity (ent : IfcEntity) : Option String :=
  match lookupA IFC_TO_BOT_ZONE ent.type with
  | some c => some c
  | none =>
    match lookupA IFC_TO_BOT_ELEMENT ent.type with
    | some c => some c
    | none => none

/-- An output triple: (subject, predicate, object) CURIEs or quoted literals. -/
abbrev Triple : Type := String × String × String

/-- The instance CURIE `f"ex:inst_{ifc_id}"` minted for a source id. -/
def instCurie (ifc_id : Nat) : String := "ex:inst_" ++ toString ifc_id

/-- Helper `is_zone_id` of `ifc_to_bot_triples`: the id resolves in the entity
mapping and its type is a zone type. -/
def is_zone_id (entities : List (Nat × IfcEntity)) (ifc_id : Nat) : Bool :=
  match lookupA entities ifc_id with
  | some e => (lookupA IFC_TO_BOT_ZONE e.type).isSome
  | none => false

/-- Helper `is_element_id` of `ifc_to_bot_triples`: the id resolves in the
entity mapping and its type is an element type. -/
def is_element_id (entities : List (Nat × IfcEntity)) (ifc_id : Nat) : Bool :=
  match lookupA entities ifc_id with
  | some e => (lookupA IFC_TO_BOT_ELEMENT e.type).isSome
  | none => false

/-- The Python `name.replace('"', '\\"')`: escape every double quote. -/
def escapeQuotes (s : String) : String :=
  String.mk (s.data.flatMap (fun c => if c = '"' then ['\\', '"'] else [c]))

/-- Section 4.1 loop body of `ifc_to_bot_triples`: the triples emitted for one
entry of the entity mapping — nothing for an unclassified entity, else one
`rdf:type` triple plus, when the name is non-empty, one `rdfs:label` triple
whose literal has inner quotes escaped. -/
def entityTriplesOne (ent_id : Nat) (ent : IfcEntity) : List Triple :=
  match classify_ifc_entity ent with
  | none => []
  | some bot_class =>
    let subj := instCurie ent_id
    (subj, "rdf:type", bot_class) ::
      (if ent.name ≠ "" then
        [(subj, "rdfs:label", "\"" ++ escapeQuotes ent.name ++ "\"")]
      else [])

/-- Section 4.2 loop body of `ifc_to_bot_triples`: the triples emitted for one
relationship, dispatching on the relationship type exactly as the Python
if/elif chain does (including building `children_curie` with `zip`). -/
def relTriples (entities : List (Nat × IfcEntity)) (rel : IfcRelationship) : List Triple :=
  let parent_curie := instCurie rel.parent_id
  let children_curie := rel.child_ids.map instCurie
  if rel.type = "IFCRELAGGREGATES" then
    (rel.child_ids.zip children_curie).flatMap (fun p =>
      if is_zone_id entities rel.parent_id && is_zone_id entities p.1 then
        [(parent_curie, "bot:containsZone", p.2)]
      else if is_element_id entities rel.parent_id && is_element_id entities p.1 then
        [(parent_curie, "bot:hasSubElement", p.2)]
      else [])
  else if rel.type = "IFCRELCONTAINEDINSPATIALSTRUCTURE" then
    (rel.child_ids.zip children_curie).flatMap (fun p =>
      if is_zone_id entities rel.parent_id && is_element_id entities p.1 then
        [(parent_curie, "bot:containsElement", p.2)]
      else [])
  else if rel.type = "IFCRELCONNECTSELEMENTS" then
    match rel.child_ids, children_curie with
    | [a_id, b_id], [a, b] =>
      if is_element_id entities a_id && is_element_id entities b_id then
        [(a, "bot:adjacentElement", b), (b, "bot:adjacentElement", a)]
      else []
    | _, _ => []
  else if rel.type = "IFCRELINTERFERESELEMENTS" then
    match rel.child_ids, children_curie with
    | [a_id, b_id], [a, b] =>
      if is_element_id entities a_id && is_element_id entities b_id then
        [(a, "bot:intersectingElement", b), (b, "bot:intersectingElement", a)]
      else []
    | _, _ => []
  else []

/-- STEP 4 — `ifc_to_bot_triples`: the entity loop followed by the
relationship loop, appending triples in order. -/
def ifc_to_bot_triples (entities : List (Nat × IfcEntity))
    (relationships : List IfcRelationship) : List Triple :=
  (entities.flatMap (fun p => entityTriplesOne p.1 p.2)) ++
    relationships.flatMap (relTriples entities)

/-- Append a (predicate, object) pair under a subject in the grouped
association list, modelling `defaultdict(list)` on a Python dict: an existing
subject keeps its position and the pair is appended to its list; a new subject
is appended at the end with a singleton list. -/
def dictAppend : List (String × List (String × String)) → String → (String × String) →
    List (String × List (String × String))
  | [], s, po => [(s, [po])]
  | (k, v) :: rest, s, po =>
    if k = s then (k, v ++ [po]) :: rest else (k, v) :: dictAppend rest s po

/-- The `by_subject` grouping of `triples_to_ttl`: fold all triples into the
insertion-ordered subject → pair-list mapping. -/
def groupBySubject (triples : List Triple) : List (String × List (String × String)) :=
  triples.foldl (fun m t => dictAppend m t.1 (t.2.1, t.2.2)) []

/-- The predicate–object lines of one stanza: `    <p> <o> ;` for every pair
but the last, which ends in ` .` (the Python `enumerate`/separator loop). -/
def renderProps : List (String × String) → List String
  | [] => []
  | [(p, o)] => ["    " ++ p ++ " " ++ o ++ " ."]
  | (p, o) :: q :: rest => ("    " ++ p ++ " " ++ o ++ " ;") :: renderProps (q :: rest)

/-- STEP 5 — `triples_to_ttl`: the four fixed prefix declarations, a blank
line, then one stanza per subject in first-appearance order. -/
def triples_to_ttl (triples : List Triple) : String :=
  let prefixes : List String :=
    ["@prefix rdf:  <http://www.w3.org/1999/02/22-rdf-syntax-ns#> .",
     "@prefix rdfs: <http://www.w3.org/2000/01/rdf-schema#> .",
     "@prefix bot:  <https://w3id.org/bot#> .",
     "@prefix ex:   <http://example.com/instances#> .",
     ""]
  let lines := prefixes ++
    (groupBySubject triples).flatMap (fun g => g.1 :: (renderProps g.2 ++ [""]))
  String.intercalate "\n" lines

/-- The full pipeline on in-memory text (the body of `convert_ifc_file_to_ttl`
without the file I/O): scan, parse, map, serialize. -/
def convert_ifc_text_to_ttl (ifc_text : String) : String :=
  let selected := scan_ifc_and_extract_lines ifc_text
  let parsed := parse_selected_ifc_lines selected
  triples_to_ttl (ifc_to_bot_triples parsed.1 parsed.2)

/-!
Specification-side definitions, written from the spec's words, used to state
the claims against the code-side definitions above.
-/

/-- Subjects in first-appearance order (spec wording for the serializer's
grouping: "Subjects are grouped in first-appearance order among the input
triples"). -/
def firstOccurList (l : List String) : List String :=
  l.foldl (fun acc s => if acc.contains s then acc else acc ++ [s]) []

/-- The record shape of the spec's Record Selector contract: the text contains,
at some position, `#<digits> <ws> = <ws> <IDENTIFIER> <ws> ( <args> ) ;` where
the record's type is the identifier normalized to uppercase and its id is the
numeric value of the digit run. -/
def RecordShapeIn (s : String) (r : Nat × String × String) : Prop :=
  ∃ pre ds w1 w2 ident w3 post,
    s.data = pre ++ '#' ::
      (ds ++ w1 ++ '=' :: (w2 ++ ident ++ w3 ++ '(' :: (r.2.2.data ++ ')' :: ';' :: post))) ∧
    ds ≠ [] ∧ (∀ c ∈ ds, isDigitChar c = true) ∧ digitsToNat ds = r.1 ∧
    ident ≠ [] ∧ (∀ c ∈ ident, isWordChar c = true) ∧ strUpper (String.mk ident) = r.2.1 ∧
    (∀ c ∈ w1, isSpaceChar c = true) ∧ (∀ c ∈ w2, isSpaceChar c = true) ∧
    (∀ c ∈ w3, isSpaceChar c = true)

/-- Modelled from the spec (claim wording): the single-quoted string literals
appearing anywhere in a text, in order of appearance.  Used to state the
"first two single-quoted string literals appearing anywhere" reading of the
entity-extraction rule. -/
def quotedLitsAux : Nat → List Char → List String
  | 0, _ => []
  | _ + 1, [] => []
  | fuel + 1, c :: rest =>
    if c = '\'' then
      let lit := rest.takeWhile (fun d => d ≠ '\'')
      match rest.dropWhile (fun d => d ≠ '\'') with
      | '\'' :: rest2 => String.mk lit :: quotedLitsAux fuel rest2
      | _ => []
    else quotedLitsAux fuel rest

/-- All complete single-quoted literals of a string, in order of appearance. -/
def singleQuotedLiterals (s : String) : List String :=
  quotedLitsAux s.data.length s.data

/-- The argument text begins with two single-quoted literals `g` and `n`
separated by a comma with optional surrounding whitespace (the anchored
pattern that the parser's entity-extraction regex actually requires). -/
def ArgsStartTwoQuoted (a : String) (g n : String) : Prop :=
  ∃ w1 w2 rest,
    a.data = '\'' :: (g.data ++ '\'' :: (w1 ++ ',' :: (w2 ++ '\'' :: (n.data ++ '\'' :: rest)))) ∧
    (∀ c ∈ g.data, c ≠ '\'') ∧ (∀ c ∈ n.data, c ≠ '\'') ∧
    (∀ c ∈ w1, isSpaceChar c = true) ∧ (∀ c ∈ w2, isSpaceChar c = true)

/-!
Theorems.
-/

/-- Collapsing the `zip` of a list with its own `map`: the code builds
`children_curie` with `zip(child_ids, children_curie)`. -/
theorem zip_map_flatMap {α β γ : Type} (l : List α) (f : α → β) (g : α × β → List γ) :
    (l.zip (l.map f)).flatMap g = l.flatMap (fun x => g (x, f x)) := by
  induction l with
  | nil => rfl
  | cons a t ih => simp [ih]

/-- Dispatch of `relTriples` on the aggregation type. -/
theorem relTriples_aggregates (entities : List (Nat × IfcEntity)) (rel : IfcRelationship)
    (h : rel.type = "IFCRELAGGREGATES") :
    relTriples entities rel = rel.child_ids.flatMap (fun cid =>
      if is_zone_id entities rel.parent_id && is_zone_id entities cid then
        [(instCurie rel.parent_id, "bot:containsZone", instCurie cid)]
      else if is_element_id entities rel.parent_id && is_element_id entities cid then
        [(instCurie rel.parent_id, "bot:hasSubElement", instCurie cid)]
      else []) := by
  unfold relTriples
  rw [h]
  simp only [if_pos rfl]
  exact zip_map_flatMap rel.child_ids instCurie _

/-- Dispatch of `relTriples` on the spatial-containment type. -/
theorem relTriples_contained (entities : List (Nat × IfcEntity)) (rel : IfcRelationship)
    (h : rel.type = "IFCRELCONTAINEDINSPATIALSTRUCTURE") :
    relTriples entities rel = rel.child_ids.flatMap (fun cid =>
      if is_zone_id entities rel.parent_id && is_element_id entities cid then
        [(instCurie rel.parent_id, "bot:containsElement", instCurie cid)]
      else []) := by
  unfold relTriples
  rw [h]
  rw [if_neg (by decide), if_pos rfl]
  exact zip_map_flatMap rel.child_ids instCurie _

/-- Dispatch of `relTriples` on the connection type. -/
theorem relTriples_connects (entities : List (Nat × IfcEntity)) (rel : IfcRelationship)
    (h : rel.type = "IFCRELCONNECTSELEMENTS") :
    relTriples entities rel =
      match rel.child_ids with
      | [a_id, b_id] =>
        if is_element_id entities a_id && is_element_id entities b_id then
          [(instCurie a_id, "bot:adjacentElement", instCurie b_id),
           (instCurie b_id, "bot:adjacentElement", instCurie a_id)]
        else []
      | _ => [] := by
  unfold relTriples
  rw [h]
  rw [if_neg (by decide), if_neg (by decide), if_pos rfl]
  rcases rel.child_ids with _ | ⟨a, _ | ⟨b, _ | ⟨c, t⟩⟩⟩ <;> rfl

/-- Dispatch of `relTriples` on the interference type. -/
theorem relTriples_interferes (entities : List (Nat × IfcEntity)) (rel : IfcRelationship)
    (h : rel.type = "IFCRELINTERFERESELEMENTS") :
    relTriples entities rel =
      match rel.child_ids with
      | [a_id, b_id] =>
        if is_element_id entities a_id && is_element_id entities b_id then
          [(instCurie a_id, "bot:intersectingElement", instCurie b_id),
           (instCurie b_id, "bot:intersectingElement", instCurie a_id)]
        else []
      | _ => [] := by
  unfold relTriples
  rw [h]
  rw [if_neg (by decide), if_neg (by decide), if_neg (by decide), if_pos rfl]
  rcases rel.child_ids with _ | ⟨a, _ | ⟨b, _ | ⟨c, t⟩⟩⟩ <;> rfl

/-- A relationship whose type is none of the four mapped relation types emits
no triples. -/
theorem relTriples_other (entities : List (Nat × IfcEntity)) (rel : IfcRelationship)
    (h1 : rel.type ≠ "IFCRELAGGREGATES")
    (h2 : rel.type ≠ "IFCRELCONTAINEDINSPATIALSTRUCTURE")
    (h3 : rel.type ≠ "IFCRELCONNECTSELEMENTS")
    (h4 : rel.type ≠ "IFCRELINTERFERESELEMENTS") :
    relTriples entities rel = [] := by
  unfold relTriples
  rw [if_neg h1, if_neg h2, if_neg h3, if_neg h4]

/-- C1: for every aggregation relationship and each of its child references,
a contains-zone triple (parent→child) is emitted when both endpoints classify
as zones, a has-sub-element triple (parent→child) when both classify as
elements, and nothing for that pair in any other combination. -/
theorem claim_C1 (entities : List (Nat × IfcEntity)) (rel : IfcRelationship)
    (h : rel.type = "IFCRELAGGREGATES") :
    relTriples entities rel = rel.child_ids.flatMap (fun cid =>
      if is_zone_id entities rel.parent_id && is_zone_id entities cid then
        [(instCurie rel.parent_id, "bot:containsZone", instCurie cid)]
      else if is_element_id entities rel.parent_id && is_element_id entities cid then
        [(instCurie rel.parent_id, "bot:hasSubElement", instCurie cid)]
      else []) :=
  relTriples_aggregates entities rel h

/-- C1 witness: a concrete aggregation with a zone/zone pair, a zone/element
pair and an unresolved child emits exactly the contains-zone triple. -/
theorem claim_C1_witness :
    relTriples
      [(10, IfcEntity.make 10 "IFCBUILDING" "Main" "G1"),
       (20, IfcEntity.make 20 "IFCBUILDINGSTOREY" "L1" "G2"),
       (40, IfcEntity.make 40 "IFCWALL" "W" "G3")]
      (IfcRelationship.make 30 "IFCRELAGGREGATES" 10 [20, 40, 99]) =
      [("ex:inst_10", "bot:containsZone", "ex:inst_20")] := by
  rw [claim_C1 _ _ (by decide)]
  decide

/-- C2: a connection (adjacency) or interference (intersection) relationship
with exactly two children that both classify as elements emits exactly the two
symmetric triples named by the relationship's property mapping; any other
child count or classification emits nothing. -/
theorem claim_C2 (entities : List (Nat × IfcEntity)) (rel : IfcRelationship)
    (h : rel.type = "IFCRELCONNECTSELEMENTS" ∨ rel.type = "IFCRELINTERFERESELEMENTS") :
    relTriples entities rel =
      match rel.child_ids with
      | [a_id, b_id] =>
        if is_element_id entities a_id && is_element_id entities b_id then
          [(instCurie a_id, (lookupA IFC_REL_TO_BOT_PROP rel.type).getD "", instCurie b_id),
           (instCurie b_id, (lookupA IFC_REL_TO_BOT_PROP rel.type).getD "", instCurie a_id)]
        else []
      | _ => [] := by
  rcases h with h | h
  · rw [relTriples_connects entities rel h, h]
    rcases hc : rel.child_ids with _ | ⟨a, _ | ⟨b, _ | ⟨c, t⟩⟩⟩ <;> rfl
  · rw [relTriples_interferes entities rel h, h]
    rcases hc : rel.child_ids with _ | ⟨a, _ | ⟨b, _ | ⟨c, t⟩⟩⟩ <;> rfl

/-- C2 witness: two concrete element children give both adjacency directions;
the same relation with three children gives nothing. -/
theorem claim_C2_witness :
    relTriples
      [(1, IfcEntity.make 1 "IFCWALL" "" "A"), (2, IfcEntity.make 2 "IFCSLAB" "" "B")]
      (IfcRelationship.make 9 "IFCRELCONNECTSELEMENTS" 7 [1, 2]) =
      [("ex:inst_1", "bot:adjacentElement", "ex:inst_2"),
       ("ex:inst_2", "bot:adjacentElement", "ex:inst_1")] ∧
    relTriples
      [(1, IfcEntity.make 1 "IFCWALL" "" "A"), (2, IfcEntity.make 2 "IFCSLAB" "" "B")]
      (IfcRelationship.make 9 "IFCRELCONNECTSELEMENTS" 7 [1, 2, 1]) = [] := by
  constructor
  · rw [claim_C2 _ _ (Or.inl (by decide))]
    decide
  · rw [claim_C2 _ _ (Or.inl (by decide))]
    decide

/-- C8: the pipeline (select, parse, map, serialize) is a deterministic
function of its input text — two runs on identical input produce identical
output text. -/
theorem claim_C8 (s1 s2 : String) (h : s1 = s2) :
    convert_ifc_text_to_ttl s1 = convert_ifc_text_to_ttl s2 := by
  rw [h]

/-- C8 witness at a concrete input. -/
theorem claim_C8_witness :
    convert_ifc_text_to_ttl "#10 = IFCWALL('a','b');" =
      convert_ifc_text_to_ttl "#10 = IFCWALL('a','b');" :=
  claim_C8 _ _ rfl

/-- A positive zone classification implies the id resolves in the mapping. -/
theorem is_zone_id_isSome (entities : List (Nat × IfcEntity)) (i : Nat)
    (h : is_zone_id entities i = true) : (lookupA entities i).isSome = true := by
  unfold is_zone_id at h
  cases hl : lookupA entities i with
  | none => rw [hl] at h; exact absurd h (by simp)
  | some e => rfl

/-- A positive element classification implies the id resolves in the mapping. -/
theorem is_element_id_isSome (entities : List (Nat × IfcEntity)) (i : Nat)
    (h : is_element_id entities i = true) : (lookupA entities i).isSome = true := by
  unfold is_element_id at h
  cases hl : lookupA entities i with
  | none => rw [hl] at h; exact absurd h (by simp)
  | some e => rfl

/-- Every triple emitted for a relationship joins two instance CURIEs whose
ids both resolve in the entity mapping. -/
theorem relTriples_endpoints (entities : List (Nat × IfcEntity)) (rel : IfcRelationship) :
    ∀ t ∈ relTriples entities rel, ∃ a b p, t = (instCurie a, p, instCurie b) ∧
      (lookupA entities a).isSome = true ∧ (lookupA entities b).isSome = true := by
  intro t ht
  by_cases h1 : rel.type = "IFCRELAGGREGATES"
  · rw [relTriples_aggregates entities rel h1, List.mem_flatMap] at ht
    obtain ⟨cid, _, ht⟩ := ht
    cases hz : (is_zone_id entities rel.parent_id && is_zone_id entities cid) with
    | true =>
      rw [if_pos hz, List.mem_singleton] at ht
      obtain ⟨hzp, hzc⟩ := Bool.and_eq_true_iff.mp hz
      exact ⟨rel.parent_id, cid, "bot:containsZone", ht,
        is_zone_id_isSome _ _ hzp, is_zone_id_isSome _ _ hzc⟩
    | false =>
      rw [if_neg (by simp [hz])] at ht
      cases he : (is_element_id entities rel.parent_id && is_element_id entities cid) with
      | true =>
        rw [if_pos he, List.mem_singleton] at ht
        obtain ⟨hep, hec⟩ := Bool.and_eq_true_iff.mp he
        exact ⟨rel.parent_id, cid, "bot:hasSubElement", ht,
          is_element_id_isSome _ _ hep, is_element_id_isSome _ _ hec⟩
      | false => rw [if_neg (by simp [he])] at ht; exact absurd ht (List.not_mem_nil t)
  · by_cases h2 : rel.type = "IFCRELCONTAINEDINSPATIALSTRUCTURE"
    · rw [relTriples_contained entities rel h2, List.mem_flatMap] at ht
      obtain ⟨cid, _, ht⟩ := ht
      cases hz : (is_zone_id entities rel.parent_id && is_element_id entities cid) with
      | true =>
        rw [if_pos hz, List.mem_singleton] at ht
        obtain ⟨hzp, hec⟩ := Bool.and_eq_true_iff.mp hz
        exact ⟨rel.parent_id, cid, "bot:containsElement", ht,
          is_zone_id_isSome _ _ hzp, is_element_id_isSome _ _ hec⟩
      | false => rw [if_neg (by simp [hz])] at ht; exact absurd ht (List.not_mem_nil t)
    · by_cases h3 : rel.type = "IFCRELCONNECTSELEMENTS"
      · rw [relTriples_connects entities rel h3] at ht
        rcases hc : rel.child_ids with _ | ⟨a, _ | ⟨b, _ | ⟨c, tl⟩⟩⟩ <;> rw [hc] at ht
        · exact absurd ht (List.not_mem_nil t)
        · exact absurd ht (List.not_mem_nil t)
        · replace ht : t ∈ (if (is_element_id entities a && is_element_id entities b) = true then
              [(instCurie a, "bot:adjacentElement", instCurie b),
               (instCurie b, "bot:adjacentElement", instCurie a)]
            else []) := ht
          cases he : (is_element_id entities a && is_element_id entities b) with
          | true =>
            rw [if_pos he] at ht
            obtain ⟨hea, heb⟩ := Bool.and_eq_true_iff.mp he
            rcases List.mem_pair.mp ht with rfl | rfl
            · exact ⟨a, b, "bot:adjacentElement", rfl,
                is_element_id_isSome _ _ hea, is_element_id_isSome _ _ heb⟩
            · exact ⟨b, a, "bot:adjacentElement", rfl,
                is_element_id_isSome _ _ heb, is_element_id_isSome _ _ hea⟩
          | false => rw [if_neg (by simp [he])] at ht; exact absurd ht (List.not_mem_nil t)
        · exact absurd ht (List.not_mem_nil t)
      · by_cases h4 : rel.type = "IFCRELINTERFERESELEMENTS"
        · rw [relTriples_interferes entities rel h4] at ht
          rcases hc : rel.child_ids with _ | ⟨a, _ | ⟨b, _ | ⟨c, tl⟩⟩⟩ <;> rw [hc] at ht
          · exact absurd ht (List.not_mem_nil t)
          · exact absurd ht (List.not_mem_nil t)
          · replace ht : t ∈ (if (is_element_id entities a && is_element_id entities b) = true then
                [(instCurie a, "bot:intersectingElement", instCurie b),
                 (instCurie b, "bot:intersectingElement", instCurie a)]
              else []) := ht
            cases he : (is_element_id entities a && is_element_id entities b) with
            | true =>
              rw [if_pos he] at ht
              obtain ⟨hea, heb⟩ := Bool.and_eq_true_iff.mp he
              rcases List.mem_pair.mp ht with rfl | rfl
              · exact ⟨a, b, "bot:intersectingElement", rfl,
                  is_element_id_isSome _ _ hea, is_element_id_isSome _ _ heb⟩
              · exact ⟨b, a, "bot:intersectingElement", rfl,
                  is_element_id_isSome _ _ heb, is_element_id_isSome _ _ hea⟩
            | false => rw [if_neg (by simp [he])] at ht; exact absurd ht (List.not_mem_nil t)
          · exact absurd ht (List.not_mem_nil t)
        · rw [relTriples_other entities rel h1 h2 h3 h4] at ht
          exact absurd ht (List.not_mem_nil t)

/-- C7: a relationship endpoint id absent from the entity mapping classifies
as neither zone nor element, and no relationship triple is emitted with that
id as either endpoint — every emitted relationship triple joins two ids that
do resolve in the mapping, hence differ from the absent id.  The mapping
engine is a total function, so it completes without error. -/
theorem claim_C7 (entities : List (Nat × IfcEntity)) (x : Nat)
    (h : lookupA entities x = none) :
    is_zone_id entities x = false ∧ is_element_id entities x = false ∧
    ∀ rel : IfcRelationship, ∀ t ∈ relTriples entities rel,
      ∃ a b p, t = (instCurie a, p, instCurie b) ∧
        (lookupA entities a).isSome = true ∧ (lookupA entities b).isSome = true ∧
        a ≠ x ∧ b ≠ x := by
  refine ⟨by unfold is_zone_id; rw [h], by unfold is_element_id; rw [h], ?_⟩
  intro rel t ht
  obtain ⟨a, b, p, rfl, ha, hb⟩ := relTriples_endpoints entities rel t ht
  refine ⟨a, b, p, rfl, ha, hb, ?_, ?_⟩
  · intro hax; rw [hax, h] at ha; exact absurd ha (by simp)
  · intro hbx; rw [hbx, h] at hb; exact absurd hb (by simp)

/-- C7 witness: id 99 is absent from a concrete mapping; it classifies as
neither, and a concrete emitted adjacency triple resolves both endpoints. -/
theorem claim_C7_witness :
    is_zone_id [(1, IfcEntity.make 1 "IFCWALL" "" "A"), (2, IfcEntity.make 2 "IFCSLAB" "" "B")] 99 = false ∧
    is_element_id [(1, IfcEntity.make 1 "IFCWALL" "" "A"), (2, IfcEntity.make 2 "IFCSLAB" "" "B")] 99 = false ∧
    ∃ a b p, (("ex:inst_1", "bot:adjacentElement", "ex:inst_2") : Triple) = (instCurie a, p, instCurie b) ∧
      (lookupA [(1, IfcEntity.make 1 "IFCWALL" "" "A"), (2, IfcEntity.make 2 "IFCSLAB" "" "B")] a).isSome = true ∧
      (lookupA [(1, IfcEntity.make 1 "IFCWALL" "" "A"), (2, IfcEntity.make 2 "IFCSLAB" "" "B")] b).isSome = true ∧
      a ≠ 99 ∧ b ≠ 99 := by
  refine ⟨(claim_C7 _ 99 (by decide)).1, (claim_C7 _ 99 (by decide)).2.1, ?_⟩
  exact (claim_C7 _ 99 (by decide)).2.2
    (IfcRelationship.make 9 "IFCRELCONNECTSELEMENTS" 7 [1, 2]) _ (by decide)

/-- C3: the per-entity emission of the mapping engine — an entity whose type
maps to a BOT class yields exactly one type triple, plus exactly one label
triple iff its name is non-empty, the label literal being the name with double
quotes escaped and then quoted; an entity with no class mapping (such as the
root type IFCPROJECT) yields no triple at all. -/
theorem claim_C3 (ent_id : Nat) (ent : IfcEntity) :
    (classify_ifc_entity ent = none → entityTriplesOne ent_id ent = []) ∧
    (∀ cls, classify_ifc_entity ent = some cls →
      (entityTriplesOne ent_id ent).countP (fun t => t.2.1 == "rdf:type") = 1 ∧
      (entityTriplesOne ent_id ent).countP (fun t => t.2.1 == "rdfs:label") =
        (if ent.name = "" then 0 else 1) ∧
      (instCurie ent_id, "rdf:type", cls) ∈ entityTriplesOne ent_id ent ∧
      (ent.name ≠ "" →
        (instCurie ent_id, "rdfs:label", "\"" ++ escapeQuotes ent.name ++ "\"") ∈
          entityTriplesOne ent_id ent)) ∧
    classify_ifc_entity ⟨ent_id, "IFCPROJECT", ent.name, ent.global_id⟩ = none := by
  refine ⟨?_, ?_, by rfl⟩
  · intro h
    unfold entityTriplesOne
    rw [h]
  · intro cls h
    unfold entityTriplesOne
    rw [h]
    by_cases hn : ent.name = ""
    · simp [hn, List.countP_cons]
    · simp [hn, List.countP_cons]

/-- C3 witness: a concrete building entity whose name contains a double quote
yields the escaped, quoted label triple. -/
theorem claim_C3_witness :
    (("ex:inst_10", "rdfs:label", "\"Ma\\\"in\"") : Triple) ∈
      entityTriplesOne 10 (IfcEntity.make 10 "IFCBUILDING" "Ma\"in" "G1") := by
  exact ((claim_C3 10 (IfcEntity.make 10 "IFCBUILDING" "Ma\"in" "G1")).2.1
    "bot:Building" (by decide)).2.2.2 (by decide)

/-- Lookup after an order-preserving dict insert. -/
theorem lookupA_dictInsert (m : List (Nat × IfcEntity)) (k : Nat) (v : IfcEntity) (i : Nat) :
    lookupA (dictInsert m k v) i = if k = i then some v else lookupA m i := by
  induction m with
  | nil => rfl
  | cons kv rest ih =>
    obtain ⟨k', v'⟩ := kv
    unfold dictInsert
    by_cases hk : k' = k
    · rw [if_pos hk]
      subst hk
      unfold lookupA
      by_cases hi : k' = i
      · rw [if_pos hi, if_pos hi]
      · rw [if_neg hi, if_neg hi, if_neg hi]
    · rw [if_neg hk]
      unfold lookupA
      by_cases hi : k' = i
      · rw [if_pos hi, if_neg (by rw [← hi]; exact fun h => hk h.symm), if_pos hi]
      · rw [if_neg hi, if_neg hi, ih]

/-- A relation type is never an entity type: the four relation type names are
not keys of the zone or element tables and are not the root type. -/
theorem relType_not_entityType (t : String) (h : isRelType t = true) :
    isEntityType t = false := by
  rcases eq_or_ne t "IFCRELAGGREGATES" with rfl | n1
  · rfl
  rcases eq_or_ne t "IFCRELCONTAINEDINSPATIALSTRUCTURE" with rfl | n2
  · rfl
  rcases eq_or_ne t "IFCRELCONNECTSELEMENTS" with rfl | n3
  · rfl
  rcases eq_or_ne t "IFCRELINTERFERESELEMENTS" with rfl | n4
  · rfl
  exact absurd h (by
    unfold isRelType IFC_REL_TO_BOT_PROP
    unfold lookupA
    rw [if_neg (Ne.symm n1)]
    unfold lookupA
    rw [if_neg (Ne.symm n2)]
    unfold lookupA
    rw [if_neg (Ne.symm n3)]
    unfold lookupA
    rw [if_neg (Ne.symm n4)]
    simp [lookupA])

/-- A parse step that is not an entity record leaves the entity mapping
untouched. -/
theorem parseStep_fst_of_not_entity (acc : List (Nat × IfcEntity) × List IfcRelationship)
    (l : Nat × String × String) (h : isEntityType l.2.1 = false) :
    (parseStep acc l).1 = acc.1 := by
  unfold parseStep
  rw [if_neg (by rw [h]; exact Bool.false_ne_true)]
  by_cases hr : isRelType l.2.1 = true
  · rw [if_pos hr]
    rcases hf : findRefs l.2.2 with _ | ⟨n0, _ | ⟨n1, ns⟩⟩ <;> rfl
  · rw [if_neg hr]

/-- Entity-mapping lookup after folding the parser over a line list: the value
for an id is the entity built from the last matching entity record, falling
back to the initial accumulator. -/
theorem parse_lookup_fold (lines : List (Nat × String × String))
    (acc : List (Nat × IfcEntity) × List IfcRelationship) (i : Nat) :
    lookupA (lines.foldl parseStep acc).1 i =
      ((lines.reverse.find? (fun l => isEntityType l.2.1 && l.1 == i)).map entityOfLine).or
        (lookupA acc.1 i) := by
  induction lines generalizing acc with
  | nil => rfl
  | cons l ls ih =>
    rw [List.foldl_cons, ih, List.reverse_cons, List.find?_append]
    cases hfind : ls.reverse.find? (fun l => isEntityType l.2.1 && l.1 == i) with
    | some l' => rfl
    | none =>
      simp only [Option.none_or]
      unfold parseStep
      cases hE : isEntityType l.2.1 with
      | true =>
        rw [if_pos rfl]
        by_cases hi : l.1 = i
        · rw [show List.find? (fun l => isEntityType l.2.1 && l.1 == i) [l] = some l by
            simp [List.find?, hE, hi]]
          show lookupA (dictInsert acc.1 l.1 (entityOfLine l)) i = _
          rw [lookupA_dictInsert, if_pos hi]
          rfl
        · rw [show List.find? (fun l => isEntityType l.2.1 && l.1 == i) [l] = none by
            simp [List.find?, hE, beq_eq_false_iff_ne.mpr hi]]
          show lookupA (dictInsert acc.1 l.1 (entityOfLine l)) i = _
          rw [lookupA_dictInsert, if_neg hi]
          rfl
      | false =>
        rw [if_neg Bool.false_ne_true]
        rw [show List.find? (fun l => isEntityType l.2.1 && l.1 == i) [l] = none by
          simp [List.find?, hE]]
        by_cases hr : isRelType l.2.1 = true
        · rw [if_pos hr]
          rcases hf : findRefs l.2.2 with _ | ⟨n0, _ | ⟨n1, ns⟩⟩ <;> rfl
        · rw [if_neg hr]

/-- Keys after a dict insert: the inserted key plus the old keys. -/
theorem mem_keys_dictInsert (m : List (Nat × IfcEntity)) (k : Nat) (v : IfcEntity) (x : Nat) :
    x ∈ (dictInsert m k v).map Prod.fst ↔ x = k ∨ x ∈ m.map Prod.fst := by
  induction m with
  | nil => simp [dictInsert]
  | cons kv rest ih =>
    obtain ⟨k', v'⟩ := kv
    unfold dictInsert
    by_cases hk : k' = k
    · subst hk
      simp
    · rw [if_neg hk]
      simp [ih]
      tauto

/-- Dict insert preserves distinctness of keys. -/
theorem dictInsert_keys_nodup (m : List (Nat × IfcEntity)) (k : Nat) (v : IfcEntity)
    (h : (m.map Prod.fst).Nodup) : ((dictInsert m k v).map Prod.fst).Nodup := by
  induction m with
  | nil => simp [dictInsert]
  | cons kv rest ih =>
    obtain ⟨k', v'⟩ := kv
    rw [List.map_cons, List.nodup_cons] at h
    unfold dictInsert
    by_cases hk : k' = k
    · subst hk
      rw [if_pos rfl]
      rw [List.map_cons, List.nodup_cons]
      exact h
    · rw [if_neg hk]
      rw [List.map_cons, List.nodup_cons]
      refine ⟨?_, ih h.2⟩
      rw [mem_keys_dictInsert]
      rintro (rfl | hmem)
      · exact hk rfl
      · exact h.1 hmem

/-- The parser fold preserves distinctness of the entity-mapping keys. -/
theorem parse_fold_keys_nodup (lines : List (Nat × String × String))
    (acc : List (Nat × IfcEntity) × List IfcRelationship)
    (h : (acc.1.map Prod.fst).Nodup) :
    (((lines.foldl parseStep acc).1).map Prod.fst).Nodup := by
  induction lines generalizing acc with
  | nil => exact h
  | cons l ls ih =>
    rw [List.foldl_cons]
    refine ih (parseStep acc l) ?_
    cases hE : isEntityType l.2.1 with
    | true =>
      have : (parseStep acc l).1 = dictInsert acc.1 l.1 (entityOfLine l) := by
        unfold parseStep
        rw [if_pos hE]
      rw [this]
      exact dictInsert_keys_nodup acc.1 l.1 (entityOfLine l) h
    | false =>
      rw [parseStep_fst_of_not_entity acc l hE]
      exact h

/-- C10: duplicate entity ids — the entity mapping holds, for each id, exactly
one entry (its key list is duplicate-free), and the stored entity is the one
built from the last entity record with that id in sequence order
(last-writer-wins); no error is raised. -/
theorem claim_C10 (lines : List (Nat × String × String)) (i : Nat) :
    lookupA (parse_selected_ifc_lines lines).1 i =
      (lines.reverse.find? (fun l => isEntityType l.2.1 && l.1 == i)).map entityOfLine ∧
    ((parse_selected_ifc_lines lines).1.map Prod.fst).Nodup := by
  constructor
  · unfold parse_selected_ifc_lines
    rw [parse_lookup_fold lines ([], []) i]
    cases lines.reverse.find? (fun l => isEntityType l.2.1 && l.1 == i) <;> rfl
  · exact parse_fold_keys_nodup lines ([], []) (by simp)

/-- The relationship list produced by the parser fold: the initial
relationships followed by one relationship per relation-typed line with at
least two references. -/
theorem parse_rels_fold (lines : List (Nat × String × String))
    (acc : List (Nat × IfcEntity) × List IfcRelationship) :
    (lines.foldl parseStep acc).2 = acc.2 ++ lines.filterMap (fun l =>
      if isRelType l.2.1 then
        match findRefs l.2.2 with
        | n0 :: n1 :: ns => some (IfcRelationship.make l.1 l.2.1 n0 (n1 :: ns))
        | _ => none
      else none) := by
  induction lines generalizing acc with
  | nil => simp
  | cons l ls ih =>
    rw [List.foldl_cons, ih, List.filterMap_cons]
    cases hE : isEntityType l.2.1 with
    | true =>
      have hr : isRelType l.2.1 = false := by
        cases hrr : isRelType l.2.1
        · rfl
        · rw [relType_not_entityType _ hrr] at hE
          exact absurd hE Bool.false_ne_true
      rw [if_neg (by rw [hr]; exact Bool.false_ne_true)]
      have : (parseStep acc l).2 = acc.2 := by
        unfold parseStep
        rw [if_pos hE]
      rw [this]
    | false =>
      cases hr : isRelType l.2.1 with
      | true =>
        rw [if_pos rfl]
        have hstep : parseStep acc l =
            (match findRefs l.2.2 with
             | n0 :: n1 :: ns => (acc.1, acc.2 ++ [IfcRelationship.make l.1 l.2.1 n0 (n1 :: ns)])
             | _ => acc) := by
          unfold parseStep
          rw [if_neg (by rw [hE]; exact Bool.false_ne_true), if_pos hr]
        rcases hf : findRefs l.2.2 with _ | ⟨n0, _ | ⟨n1, ns⟩⟩ <;> rw [hf] at hstep <;>
          rw [hstep] <;> simp
      | false =>
        rw [if_neg Bool.false_ne_true]
        have : parseStep acc l = acc := by
          unfold parseStep
          rw [if_neg (by rw [hE]; exact Bool.false_ne_true), if_neg (by rw [hr]; exact Bool.false_ne_true)]
        rw [this]

/-- Every number produced by the `#(\d+)` reference scan comes from an
occurrence of `#` followed by a non-empty digit run in the text. -/
theorem findRefsAux_decomp (fuel : Nat) :
    ∀ cs : List Char, cs.length ≤ fuel → ∀ n ∈ findRefsAux fuel cs,
      ∃ pre ds post, cs = pre ++ '#' :: (ds ++ post) ∧ ds ≠ [] ∧
        (∀ c ∈ ds, isDigitChar c = true) ∧ digitsToNat ds = n := by
  induction fuel with
  | zero =>
    intro cs _ n hn
    exact absurd hn (List.not_mem_nil n)
  | succ fuel ih =>
    intro cs hlen n hn
    match cs with
    | [] => exact absurd hn (List.not_mem_nil n)
    | c :: rest =>
      rw [List.length_cons, Nat.succ_le_succ_iff] at hlen
      unfold findRefsAux at hn
      by_cases hc : c = '#'
      · rw [if_pos hc] at hn
        subst hc
        cases hd : (rest.takeWhile isDigitChar).isEmpty with
        | true =>
          rw [if_pos hd] at hn
          obtain ⟨pre, ds, post, heq, hne, hdig, hval⟩ := ih rest hlen n hn
          exact ⟨'#' :: pre, ds, post, by rw [heq]; rfl, hne, hdig, hval⟩
        | false =>
          rw [if_neg (by rw [hd]; exact Bool.false_ne_true)] at hn
          rcases List.mem_cons.mp hn with rfl | hmem
          · refine ⟨[], rest.takeWhile isDigitChar, rest.dropWhile isDigitChar,
              by rw [List.nil_append, List.takeWhile_append_dropWhile], ?_, ?_, rfl⟩
            · intro hnil
              rw [hnil] at hd
              exact absurd hd (by simp)
            · intro c hcmem
              exact List.mem_takeWhile_imp hcmem
          · have hlen2 : (rest.dropWhile isDigitChar).length ≤ fuel :=
              le_trans (List.Sublist.length_le (List.dropWhile_sublist _)) hlen
            obtain ⟨pre, ds, post, heq, hne, hdig, hval⟩ :=
              ih (rest.dropWhile isDigitChar) hlen2 n hmem
            refine ⟨'#' :: (rest.takeWhile isDigitChar ++ pre), ds, post, ?_, hne, hdig, hval⟩
            rw [List.cons_append, List.append_assoc, ← heq, List.takeWhile_append_dropWhile]
      · rw [if_neg hc] at hn
        obtain ⟨pre, ds, post, heq, hne, hdig, hval⟩ := ih rest hlen n hn
        exact ⟨c :: pre, ds, post, by rw [heq]; rfl, hne, hdig, hval⟩

/-- C5: the parser turns exactly the relation-typed selected records with at
least two `#`-references into relationships — the first reference is the
parent, the remaining ones the ordered children; records with fewer than two
references are silently dropped.  Each collected reference comes from a
`#<digits>` occurrence in the argument text. -/
theorem claim_C5 (lines : List (Nat × String × String)) :
    (parse_selected_ifc_lines lines).2 = lines.filterMap (fun l =>
      if isRelType l.2.1 then
        match findRefs l.2.2 with
        | n0 :: n1 :: ns => some (IfcRelationship.make l.1 l.2.1 n0 (n1 :: ns))
        | _ => none
      else none) ∧
    ∀ args : String, ∀ n ∈ findRefs args, ∃ pre ds post,
      args.data = pre ++ '#' :: (ds ++ post) ∧ ds ≠ [] ∧
      (∀ c ∈ ds, isDigitChar c = true) ∧ digitsToNat ds = n := by
  constructor
  · unfold parse_selected_ifc_lines
    rw [parse_rels_fold lines ([], [])]
    rfl
  · intro args n hn
    exact findRefsAux_decomp args.data.length args.data le_rfl n hn

/-- C5 witness: a concrete aggregation record with references `#10`, `#20`
yields parent 10 and children `[20]`; a record with a single reference is
dropped; and the decomposition of the reference 10 in the argument text. -/
theorem claim_C5_witness :
    (parse_selected_ifc_lines
      [(30, "IFCRELAGGREGATES", "'X',$,#10,(#20)"),
       (31, "IFCRELCONNECTSELEMENTS", "'Y',#5")]).2 =
      [IfcRelationship.make 30 "IFCRELAGGREGATES" 10 [20]] ∧
    (∃ pre ds post,
      ("'X',$,#10,(#20)" : String).data = pre ++ '#' :: (ds ++ post) ∧ ds ≠ [] ∧
      (∀ c ∈ ds, isDigitChar c = true) ∧ digitsToNat ds = 10) := by
  constructor
  · rw [(claim_C5 _).1]
    decide
  · exact (claim_C5 []).2 "'X',$,#10,(#20)" 10 (by decide)

/-- `takeWhile` over a list that satisfies the predicate followed by a
failing element: exactly the prefix. -/
theorem takeWhile_append_of (p : Char → Bool) (xs : List Char) (y : Char) (ys : List Char)
    (hx : ∀ x ∈ xs, p x = true) (hy : p y = false) :
    (xs ++ y :: ys).takeWhile p = xs := by
  induction xs with
  | nil =>
    rw [List.nil_append]
    apply List.takeWhile_cons_of_neg
    simp [hy]
  | cons x xs ih =>
    rw [List.cons_append, List.takeWhile_cons_of_pos (hx x (List.mem_cons_self x xs))]
    rw [ih (fun z hz => hx z (List.mem_cons_of_mem x hz))]

/-- `dropWhile` over a list that satisfies the predicate followed by a failing
element: exactly the remainder from that element on. -/
theorem dropWhile_append_of (p : Char → Bool) (xs : List Char) (y : Char) (ys : List Char)
    (hx : ∀ x ∈ xs, p x = true) (hy : p y = false) :
    (xs ++ y :: ys).dropWhile p = y :: ys := by
  induction xs with
  | nil =>
    rw [List.nil_append]
    apply List.dropWhile_cons_of_neg
    simp [hy]
  | cons x xs ih =>
    rw [List.cons_append, List.dropWhile_cons_of_pos (hx x (List.mem_cons_self x xs))]
    exact ih (fun z hz => hx z (List.mem_cons_of_mem x hz))

/-- Soundness of the anchored two-literal matcher: a successful match
decomposes the input as quote, first literal, quote, spaces, comma, spaces,
quote, second literal, quote, remainder. -/
theorem matchTwoQuoted_sound (cs : List Char) (g n : List Char)
    (h : matchTwoQuoted cs = some (g, n)) :
    ∃ w1 w2 rest,
      cs = '\'' :: (g ++ '\'' :: (w1 ++ ',' :: (w2 ++ '\'' :: (n ++ '\'' :: rest)))) ∧
      (∀ c ∈ g, c ≠ '\'') ∧ (∀ c ∈ n, c ≠ '\'') ∧
      (∀ c ∈ w1, isSpaceChar c = true) ∧ (∀ c ∈ w2, isSpaceChar c = true) := by
  unfold matchTwoQuoted at h
  split at h
  case h_2 => exact absurd h (by simp)
  case h_1 cs1 =>
    split at h
    case h_2 => exact absurd h (by simp)
    case h_1 cs2 heq1 =>
      split at h
      case h_2 => exact absurd h (by simp)
      case h_1 cs3 heq2 =>
        split at h
        case h_2 => exact absurd h (by simp)
        case h_1 cs4 heq3 =>
          split at h
          case h_2 => exact absurd h (by simp)
          case h_1 tail heq4 =>
            rw [Option.some_inj] at h
            have hgeq : g = cs1.takeWhile (fun c => decide (c ≠ '\'')) := by
              have := congrArg Prod.fst h
              exact this.symm
            have hneq : n = cs4.takeWhile (fun c => decide (c ≠ '\'')) := by
              have := congrArg Prod.snd h
              exact this.symm
            refine ⟨cs2.takeWhile isSpaceChar, cs3.takeWhile isSpaceChar, tail, ?_, ?_, ?_, ?_, ?_⟩
            · have d1 : cs1 = g ++ '\'' :: cs2 := by
                rw [hgeq, ← heq1, List.takeWhile_append_dropWhile]
              have d2 : cs2 = cs2.takeWhile isSpaceChar ++ ',' :: cs3 := by
                rw [← heq2, List.takeWhile_append_dropWhile]
              have d3 : cs3 = cs3.takeWhile isSpaceChar ++ '\'' :: cs4 := by
                rw [← heq3, List.takeWhile_append_dropWhile]
              have d4 : cs4 = n ++ '\'' :: tail := by
                rw [hneq, ← heq4, List.takeWhile_append_dropWhile]
              conv_lhs => rw [d1, d2, d3, d4]
            · intro c hc
              rw [hgeq] at hc
              have := List.mem_takeWhile_imp hc
              exact of_decide_eq_true this
            · intro c hc
              rw [hneq] at hc
              have := List.mem_takeWhile_imp hc
              exact of_decide_eq_true this
            · intro c hc
              exact List.mem_takeWhile_imp hc
            · intro c hc
              exact List.mem_takeWhile_imp hc

/-- Completeness of the anchored two-literal matcher: on an input of the
decomposed shape it returns exactly the two literals. -/
theorem matchTwoQuoted_complete (a g n : String) (h : ArgsStartTwoQuoted a g n) :
    matchTwoQuoted a.data = some (g.data, n.data) := by
  obtain ⟨w1, w2, rest, heq, hg, hn, hw1, hw2⟩ := h
  have e1 : (g.data ++ '\'' :: (w1 ++ ',' :: (w2 ++ '\'' :: (n.data ++ '\'' :: rest)))).takeWhile
      (fun c => decide (c ≠ '\'')) = g.data :=
    takeWhile_append_of _ _ _ _ (fun c hc => decide_eq_true (hg c hc)) (by decide)
  have e2 : (g.data ++ '\'' :: (w1 ++ ',' :: (w2 ++ '\'' :: (n.data ++ '\'' :: rest)))).dropWhile
      (fun c => decide (c ≠ '\'')) = '\'' :: (w1 ++ ',' :: (w2 ++ '\'' :: (n.data ++ '\'' :: rest))) :=
    dropWhile_append_of _ _ _ _ (fun c hc => decide_eq_true (hg c hc)) (by decide)
  have e3 : (w1 ++ ',' :: (w2 ++ '\'' :: (n.data ++ '\'' :: rest))).dropWhile isSpaceChar =
      ',' :: (w2 ++ '\'' :: (n.data ++ '\'' :: rest)) :=
    dropWhile_append_of _ _ _ _ hw1 (by decide)
  have e4 : (w2 ++ '\'' :: (n.data ++ '\'' :: rest)).dropWhile isSpaceChar =
      '\'' :: (n.data ++ '\'' :: rest) :=
    dropWhile_append_of _ _ _ _ hw2 (by decide)
  have e5 : (n.data ++ '\'' :: rest).takeWhile (fun c => decide (c ≠ '\'')) = n.data :=
    takeWhile_append_of _ _ _ _ (fun c hc => decide_eq_true (hn c hc)) (by decide)
  have e6 : (n.data ++ '\'' :: rest).dropWhile (fun c => decide (c ≠ '\'')) = '\'' :: rest :=
    dropWhile_append_of _ _ _ _ (fun c hc => decide_eq_true (hn c hc)) (by decide)
  rw [heq]
  simp only [matchTwoQuoted, e1, e2, e3, e4, e5, e6]

/-- C4 counterexample: the record `#7 = IFCBUILDING($,'G1','Main');` is
selected; its argument text contains the single-quoted literals `G1` and
`Main` (in order of appearance), yet the parsed entity has empty global
identifier and empty name, because the two-literal pattern is anchored at the
start of the argument text rather than matched anywhere. -/
theorem claim_C4_counterexample :
    scan_ifc_and_extract_lines "#7 = IFCBUILDING($,'G1','Main');" =
      [(7, "IFCBUILDING", "$,'G1','Main'")] ∧
    singleQuotedLiterals "$,'G1','Main'" = ["G1", "Main"] ∧
    lookupA (parse_selected_ifc_lines [(7, "IFCBUILDING", "$,'G1','Main'")]).1 7 =
      some ⟨7, "IFCBUILDING", "", ""⟩ := by
  refine ⟨by decide, by decide, by decide⟩

/-- C4 (amended): the parser extracts (global identifier, name) as the two
single-quoted literals only when the argument text begins with a quoted
literal, a comma with optional surrounding whitespace, and a second quoted
literal; in every other case both fields are the empty string and no error is
raised. -/
theorem claim_C4_amended (a : String) :
    (∀ g n : String, ArgsStartTwoQuoted a g n → parseEntityArgs a = (g, n)) ∧
    ((∀ g n : String, ¬ ArgsStartTwoQuoted a g n) → parseEntityArgs a = ("", "")) ∧
    (∀ i : Nat, ∀ t : String,
      (entityOfLine (i, t, a)).global_id = (parseEntityArgs a).1 ∧
      (entityOfLine (i, t, a)).name = (parseEntityArgs a).2) := by
  refine ⟨?_, ?_, ?_⟩
  · intro g n h
    unfold parseEntityArgs
    rw [matchTwoQuoted_complete a g n h]
  · intro hnone
    unfold parseEntityArgs
    cases hm : matchTwoQuoted a.data with
    | none => rfl
    | some p =>
      obtain ⟨g0, n0⟩ := p
      obtain ⟨w1, w2, rest, heq, hg, hn, hw1, hw2⟩ := matchTwoQuoted_sound a.data g0 n0 hm
      exact absurd
        (show ArgsStartTwoQuoted a (String.mk g0) (String.mk n0) from
          ⟨w1, w2, rest, heq, hg, hn, hw1, hw2⟩)
        (hnone (String.mk g0) (String.mk n0))
  · intro i t
    exact ⟨rfl, rfl⟩

/-- C4 witness: a concrete argument text starting with the anchored pattern
yields the two literals as (global identifier, name). -/
theorem claim_C4_witness :
    parseEntityArgs "'G1','Main'" = ("G1", "Main") :=
  (claim_C4_amended "'G1','Main'").1 "G1" "Main"
    ⟨[], [], [], by decide, by decide, by decide, by decide, by decide⟩

/-- One unfolding step of `lookupA` on a cons cell. -/
theorem lookupA_cons {κ α : Type} [DecidableEq κ] (k : κ) (v : α) (rest : List (κ × α)) (x : κ) :
    lookupA ((k, v) :: rest) x = if k = x then some v else lookupA rest x := rfl

/-- One unfolding step of `dictAppend` on a cons cell. -/
theorem dictAppend_cons (k : String) (v : List (String × String))
    (rest : List (String × List (String × String))) (s : String) (po : String × String) :
    dictAppend ((k, v) :: rest) s po =
      if k = s then (k, v ++ [po]) :: rest else (k, v) :: dictAppend rest s po := rfl

/-- Keys after appending a pair under a subject: unchanged when the subject is
already present, else the subject is appended at the end. -/
theorem keys_dictAppend (m : List (String × List (String × String))) (s : String)
    (po : String × String) :
    (dictAppend m s po).map Prod.fst =
      if (m.map Prod.fst).contains s then m.map Prod.fst else m.map Prod.fst ++ [s] := by
  induction m with
  | nil => simp [dictAppend]
  | cons kv rest ih =>
    obtain ⟨k, v⟩ := kv
    rw [dictAppend_cons]
    by_cases hk : k = s
    · subst hk
      rw [if_pos rfl]
      simp
    · rw [if_neg hk, List.map_cons, List.map_cons, ih, List.contains_cons]
      rw [show (s == k) = false from beq_eq_false_iff_ne.mpr (fun h => hk h.symm), Bool.false_or]
      cases hc : (rest.map Prod.fst).contains s <;> simp [hc]

/-- Lookup after appending a pair under a subject. -/
theorem lookupA_dictAppend (m : List (String × List (String × String))) (s : String)
    (po : String × String) (x : String) :
    lookupA (dictAppend m s po) x =
      if x = s then some ((lookupA m s).getD [] ++ [po]) else lookupA m x := by
  induction m with
  | nil =>
    rw [show dictAppend [] s po = [(s, [po])] from rfl, lookupA_cons]
    by_cases hx : x = s
    · rw [if_pos (hx.symm), if_pos hx]
      rfl
    · rw [if_neg (fun h => hx h.symm), if_neg hx]
  | cons kv rest ih =>
    obtain ⟨k, v⟩ := kv
    rw [dictAppend_cons]
    by_cases hk : k = s
    · subst hk
      rw [if_pos rfl]
      rw [lookupA_cons k (v ++ [po]) rest x]
      rw [lookupA_cons k v rest k, if_pos rfl]
      rw [lookupA_cons k v rest x]
      by_cases hx : k = x
      · rw [if_pos hx, if_pos hx.symm]
        rfl
      · rw [if_neg hx, if_neg (fun h => hx h.symm), if_neg hx]
    · rw [if_neg hk]
      rw [lookupA_cons k v (dictAppend rest s po) x]
      rw [lookupA_cons k v rest s, if_neg hk]
      rw [lookupA_cons k v rest x]
      by_cases hx : k = x
      · rw [if_pos hx, if_pos hx]
        rw [if_neg (fun h => hk (hx ▸ h))]
      · rw [if_neg hx, ih, if_neg hx]

/-- Lookup of a subject after folding the serializer's grouping over a triple
list: the initial pairs (when the subject was already present) followed by the
(p, o) pairs of that subject's triples, in order, duplicates kept. -/
theorem groupFold_lookup (ts : List Triple)
    (m : List (String × List (String × String))) (s : String) :
    lookupA (ts.foldl (fun m t => dictAppend m t.1 (t.2.1, t.2.2)) m) s =
      match lookupA m s with
      | some v => some (v ++ (ts.filter (fun t => t.1 == s)).map (fun t => (t.2.1, t.2.2)))
      | none =>
        match (ts.filter (fun t => t.1 == s)).map (fun t => (t.2.1, t.2.2)) with
        | [] => none
        | q :: qs => some (q :: qs) := by
  induction ts generalizing m with
  | nil =>
    cases h : lookupA m s <;> simp [h]
  | cons t ts ih =>
    rw [List.foldl_cons, ih, lookupA_dictAppend]
    by_cases hst : s = t.1
    · rw [if_pos hst]
      have hpred : (t.1 == s) = true := by rw [hst]; simp
      rw [List.filter_cons, if_pos hpred, List.map_cons]
      cases h : lookupA m s with
      | some v =>
        rw [← hst, h]
        simp
      | none =>
        rw [← hst, h]
        simp
    · rw [if_neg hst]
      have hpred : (t.1 == s) = false := beq_eq_false_iff_ne.mpr (fun h => hst h.symm)
      rw [List.filter_cons, if_neg (by rw [hpred]; exact Bool.false_ne_true)]

/-- Keys of the grouped mapping after the fold: first-appearance accumulation
of the subjects. -/
theorem groupFold_keys (ts : List Triple) (m : List (String × List (String × String))) :
    ((ts.foldl (fun m t => dictAppend m t.1 (t.2.1, t.2.2)) m).map Prod.fst) =
      ts.foldl (fun acc t => if acc.contains t.1 then acc else acc ++ [t.1]) (m.map Prod.fst) := by
  induction ts generalizing m with
  | nil => rfl
  | cons t ts ih =>
    rw [List.foldl_cons, ih, keys_dictAppend, List.foldl_cons]

/-- The grouped mapping's keys are duplicate-free. -/
theorem groupFold_keys_nodup (ts : List Triple) (m : List (String × List (String × String)))
    (h : (m.map Prod.fst).Nodup) :
    ((ts.foldl (fun m t => dictAppend m t.1 (t.2.1, t.2.2)) m).map Prod.fst).Nodup := by
  induction ts generalizing m with
  | nil => exact h
  | cons t ts ih =>
    rw [List.foldl_cons]
    refine ih (dictAppend m t.1 (t.2.1, t.2.2)) ?_
    rw [keys_dictAppend]
    cases hc : (m.map Prod.fst).contains t.1 with
    | true => rw [if_pos rfl]; exact h
    | false =>
      rw [if_neg Bool.false_ne_true]
      rw [List.nodup_append]
      refine ⟨h, List.nodup_singleton _, ?_⟩
      intro x hx hx1
      rw [List.mem_singleton] at hx1
      subst hx1
      have hcc : (List.map Prod.fst m).contains t.1 = true := List.elem_iff.mpr hx
      rw [hc] at hcc
      exact Bool.false_ne_true hcc

/-- In an association list with duplicate-free keys, membership determines the
lookup. -/
theorem lookupA_of_mem_nodup {κ α : Type} [DecidableEq κ] (m : List (κ × α))
    (hnd : (m.map Prod.fst).Nodup) (k : κ) (v : α) (h : (k, v) ∈ m) :
    lookupA m k = some v := by
  induction m with
  | nil => exact absurd h (List.not_mem_nil _)
  | cons kv rest ih =>
    obtain ⟨k', v'⟩ := kv
    rw [List.map_cons, List.nodup_cons] at hnd
    rcases List.mem_cons.mp h with heq | hmem
    · obtain ⟨rfl, rfl⟩ := Prod.mk.injEq _ _ _ _ ▸ heq
      unfold lookupA
      rw [if_pos rfl]
    · unfold lookupA
      by_cases hk : k' = k
      · subst hk
        exact absurd (List.mem_map_of_mem Prod.fst hmem) hnd.1
      · rw [if_neg hk]
        exact ih hnd.2 hmem

/-- The stanza lines for a non-empty pair list: every pair but the last is
rendered with a `;` terminator, the last with `.`. -/
theorem renderProps_append (props : List (String × String)) (p o : String) :
    renderProps (props ++ [(p, o)]) =
      props.map (fun q => "    " ++ q.1 ++ " " ++ q.2 ++ " ;") ++
        ["    " ++ p ++ " " ++ o ++ " ."] := by
  induction props with
  | nil => rfl
  | cons q rest ih =>
    rcases hr : rest ++ [(p, o)] with _ | ⟨r0, rtail⟩
    · exact absurd hr (by simp)
    · rw [List.cons_append, hr]
      unfold renderProps
      rw [← hr, ih, List.map_cons, List.cons_append]

/-- C9: the serializer emits the four fixed prefix declarations and a blank
line, then one stanza per distinct subject in first-appearance order; each
subject's predicate–object pairs appear in first-encounter order with `;`
separators and a final `.`, and duplicates are kept (a duplicate input triple
is serialized twice). -/
theorem claim_C9 (ts : List Triple) :
    (groupBySubject ts).map Prod.fst = firstOccurList (ts.map (fun t => t.1)) ∧
    (∀ s props, (s, props) ∈ groupBySubject ts →
      props = (ts.filter (fun t => t.1 == s)).map (fun t => (t.2.1, t.2.2))) ∧
    triples_to_ttl ts = String.intercalate "\n"
      (["@prefix rdf:  <http://www.w3.org/1999/02/22-rdf-syntax-ns#> .",
        "@prefix rdfs: <http://www.w3.org/2000/01/rdf-schema#> .",
        "@prefix bot:  <https://w3id.org/bot#> .",
        "@prefix ex:   <http://example.com/instances#> .",
        ""] ++ (groupBySubject ts).flatMap (fun g => g.1 :: (renderProps g.2 ++ [""]))) ∧
    (∀ props p o, renderProps (props ++ [(p, o)]) =
      props.map (fun q => "    " ++ q.1 ++ " " ++ q.2 ++ " ;") ++
        ["    " ++ p ++ " " ++ o ++ " ."]) := by
  refine ⟨?_, ?_, rfl, renderProps_append⟩
  · unfold groupBySubject firstOccurList
    rw [groupFold_keys, List.foldl_map]
    rfl
  · intro s props h
    have hnd := groupFold_keys_nodup ts [] (by simp)
    have hl := lookupA_of_mem_nodup _ hnd s props h
    rw [groupFold_lookup ts [] s] at hl
    replace hl :
        (match (ts.filter (fun t => t.1 == s)).map (fun t => (t.2.1, t.2.2)) with
         | [] => (none : Option (List (String × String)))
         | q :: qs => some (q :: qs)) = some props := hl
    rcases hfm : (ts.filter (fun t => t.1 == s)).map (fun t => (t.2.1, t.2.2)) with _ | ⟨q, qs⟩
    · rw [hfm] at hl
      simp at hl
    · rw [hfm] at hl
      simp at hl
      rw [hfm]
      exact hl.symm

/-- C9 witness: a duplicated triple is grouped under its subject twice. -/
theorem claim_C9_witness :
    ([("p", "o"), ("p", "o")] : List (String × String)) =
      ((([("s", "p", "o"), ("t", "p2", "o2"), ("s", "p", "o")] : List Triple).filter
        (fun t => t.1 == "s")).map (fun t => (t.2.1, t.2.2))) :=
  (claim_C9 [("s", "p", "o"), ("t", "p2", "o2"), ("s", "p", "o")]).2.1 "s"
    [("p", "o"), ("p", "o")] (by decide)

/-- A successful `findArgs` split means the input is the argument text
followed by `);` followed by the remainder. -/
theorem findArgs_decomp (cs : List Char) : ∀ args after, findArgs cs = some (args, after) →
    cs = args ++ ')' :: ';' :: after := by
  induction cs with
  | nil =>
    intro args after h
    simp [findArgs] at h
  | cons c rest ih =>
    intro args after h
    rw [findArgs.eq_def] at h
    split at h
    · rename_i x r heq
      injection h with hp
      cases hp
      rw [heq]
      rfl
    · rename_i x c2 rest2 hno heq
      injection heq with e1 e2
      subst e1
      subst e2
      cases hf : findArgs rest with
      | none =>
        rw [hf] at h
        exact absurd h (by simp)
      | some p =>
        obtain ⟨a2, af2⟩ := p
        rw [hf] at h
        replace h : some (c :: a2, af2) = some (args, after) := h
        injection h with hp
        cases hp
        rw [ih _ _ hf]
        rfl
    · rename_i x heq
      exact absurd heq (by simp)

/-- A successful record match decomposes the input into the full record shape:
`#`, digits, whitespace, `=`, whitespace, identifier, whitespace, `(`, the
argument text, `);`, remainder — with the record's id the value of the digit
run and its type the uppercased identifier. -/
theorem matchRecordFrom_decomp (cs : List Char) (i : Nat) (ty args : String) (after : List Char)
    (h : matchRecordFrom cs = some (i, ty, args, after)) :
    ∃ ds w1 w2 ident w3,
      cs = '#' :: (ds ++ w1 ++ '=' :: (w2 ++ ident ++ w3 ++ '(' :: (args.data ++ ')' :: ';' :: after))) ∧
      ds ≠ [] ∧ (∀ c ∈ ds, isDigitChar c = true) ∧ digitsToNat ds = i ∧
      ident ≠ [] ∧ (∀ c ∈ ident, isWordChar c = true) ∧ strUpper (String.mk ident) = ty ∧
      (∀ c ∈ w1, isSpaceChar c = true) ∧ (∀ c ∈ w2, isSpaceChar c = true) ∧
      (∀ c ∈ w3, isSpaceChar c = true) := by
  unfold matchRecordFrom at h
  split at h
  case h_2 => exact absurd h (by simp)
  case h_1 cs1 =>
    by_cases hd : (cs1.takeWhile isDigitChar).isEmpty
    · rw [if_pos hd] at h
      exact absurd h (by simp)
    · rw [if_neg hd] at h
      split at h
      rotate_left
      next => exact absurd h (by simp)
      next cs3 heq1 =>
        by_cases hi : ((cs3.dropWhile isSpaceChar).takeWhile isWordChar).isEmpty
        · rw [if_pos hi] at h
          exact absurd h (by simp)
        · rw [if_neg hi] at h
          split at h
          rotate_left
          next => exact absurd h (by simp)
          next cs6 heq2 =>
            split at h
            rotate_left
            next => exact absurd h (by simp)
            next argsL afterL2 heq3 =>
              injection h with hp
              cases hp
              have d2 : cs1.dropWhile isDigitChar =
                  (cs1.dropWhile isDigitChar).takeWhile isSpaceChar ++ '=' :: cs3 := by
                rw [← heq1]
                exact (List.takeWhile_append_dropWhile _ _).symm
              have d5 : (cs3.dropWhile isSpaceChar).dropWhile isWordChar =
                  ((cs3.dropWhile isSpaceChar).dropWhile isWordChar).takeWhile isSpaceChar ++
                    '(' :: cs6 := by
                rw [← heq2]
                exact (List.takeWhile_append_dropWhile _ _).symm
              have d6 : cs6 = argsL ++ ')' :: ';' :: after := findArgs_decomp cs6 argsL after heq3
              refine ⟨cs1.takeWhile isDigitChar,
                (cs1.dropWhile isDigitChar).takeWhile isSpaceChar,
                cs3.takeWhile isSpaceChar,
                (cs3.dropWhile isSpaceChar).takeWhile isWordChar,
                ((cs3.dropWhile isSpaceChar).dropWhile isWordChar).takeWhile isSpaceChar,
                ?_, ?_, ?_, rfl, ?_, ?_, rfl, ?_, ?_, ?_⟩
              · have d1 : cs1 = cs1.takeWhile isDigitChar ++ cs1.dropWhile isDigitChar :=
                  (List.takeWhile_append_dropWhile _ _).symm
                have d3 : cs3 = cs3.takeWhile isSpaceChar ++ cs3.dropWhile isSpaceChar :=
                  (List.takeWhile_append_dropWhile _ _).symm
                have d4 : cs3.dropWhile isSpaceChar =
                    (cs3.dropWhile isSpaceChar).takeWhile isWordChar ++
                      (cs3.dropWhile isSpaceChar).dropWhile isWordChar :=
                  (List.takeWhile_append_dropWhile _ _).symm
                conv_lhs => rw [d1, d2, d3, d4, d5, d6]
                simp
              · intro hnil
                apply hd
                rw [hnil]
                rfl
              · intro c hc
                exact List.mem_takeWhile_imp hc
              · intro hnil
                apply hi
                rw [hnil]
                rfl
              · intro c hc
                exact List.mem_takeWhile_imp hc
              · intro c hc
                exact List.mem_takeWhile_imp hc
              · intro c hc
                exact List.mem_takeWhile_imp hc
              · intro c hc
                exact List.mem_takeWhile_imp hc

/-- A successful record match consumes a non-empty segment ending with `);`. -/
theorem matchRecordFrom_split (cs : List Char) (i : Nat) (ty args : String) (after : List Char)
    (h : matchRecordFrom cs = some (i, ty, args, after)) :
    ∃ seg, cs = seg ++ after ∧ seg ≠ [] := by
  obtain ⟨ds, w1, w2, ident, w3, heq, _, _, _, _, _, _, _, _, _⟩ :=
    matchRecordFrom_decomp cs i ty args after h
  refine ⟨'#' :: (ds ++ w1 ++ '=' :: (w2 ++ ident ++ w3 ++ '(' :: (args.data ++ [')', ';']))),
    ?_, by simp⟩
  rw [heq]
  simp

/-- A successful record match leaves a strictly shorter remainder. -/
theorem matchRecordFrom_length (cs : List Char) (i : Nat) (ty args : String) (after : List Char)
    (h : matchRecordFrom cs = some (i, ty, args, after)) : after.length < cs.length := by
  obtain ⟨seg, heq, hne⟩ := matchRecordFrom_split cs i ty args after h
  rw [heq, List.length_append]
  rcases seg with _ | ⟨c, seg⟩
  · exact absurd rfl hne
  · rw [List.length_cons]
    omega

/-- The filtering scan is the raw scan filtered by the types-of-interest
test. -/
theorem scanAux_eq_filter (fuel : Nat) : ∀ cs : List Char,
    scanAux fuel cs = (rawScanAux fuel cs).filter (fun r => isOfInterest r.2.1) := by
  induction fuel with
  | zero => intro cs; rfl
  | succ fuel ih =>
    intro cs
    rcases cs with _ | ⟨c, rest⟩
    · rfl
    · show (match matchRecordFrom (c :: rest) with
        | some (ent_id, ent_type, args, after) =>
          if isOfInterest ent_type then (ent_id, ent_type, args) :: scanAux fuel after
          else scanAux fuel after
        | none => scanAux fuel rest) =
        ((match matchRecordFrom (c :: rest) with
          | some (ent_id, ent_type, args, after) =>
            (ent_id, ent_type, args) :: rawScanAux fuel after
          | none => rawScanAux fuel rest).filter (fun r => isOfInterest r.2.1))
      cases hm : matchRecordFrom (c :: rest) with
      | none => exact ih rest
      | some q =>
        obtain ⟨ent_id, ent_type, args, after⟩ := q
        show (if isOfInterest ent_type = true then
            (ent_id, ent_type, args) :: scanAux fuel after
          else scanAux fuel after) =
          ((ent_id, ent_type, args) :: rawScanAux fuel after).filter
            (fun r => isOfInterest r.2.1)
        rw [List.filter_cons]
        cases hio : isOfInterest ent_type with
        | true => rw [if_pos rfl, if_pos rfl, ih after]
        | false => rw [if_neg Bool.false_ne_true, if_neg Bool.false_ne_true, ih after]

/-- Every record emitted by the raw scan arises from a record-regex match at
some position of the input. -/
theorem rawScanAux_shape (fuel : Nat) : ∀ cs : List Char, cs.length ≤ fuel →
    ∀ r ∈ rawScanAux fuel cs, ∃ pre suf after, cs = pre ++ suf ∧
      matchRecordFrom suf = some (r.1, r.2.1, r.2.2, after) := by
  induction fuel with
  | zero =>
    intro cs _ r hr
    exact absurd hr (List.not_mem_nil r)
  | succ fuel ih =>
    intro cs hlen r hr
    rcases cs with _ | ⟨c, rest⟩
    · exact absurd hr (List.not_mem_nil r)
    · rw [List.length_cons, Nat.succ_le_succ_iff] at hlen
      replace hr : r ∈ (match matchRecordFrom (c :: rest) with
          | some (ent_id, ent_type, args, after) =>
            (ent_id, ent_type, args) :: rawScanAux fuel after
          | none => rawScanAux fuel rest) := hr
      cases hm : matchRecordFrom (c :: rest) with
      | none =>
        rw [hm] at hr
        obtain ⟨pre, suf, after, heq, hmt⟩ := ih rest hlen r hr
        exact ⟨c :: pre, suf, after, by rw [heq]; rfl, hmt⟩
      | some q =>
        obtain ⟨ent_id, ent_type, args, after⟩ := q
        rw [hm] at hr
        rcases List.mem_cons.mp hr with rfl | hmem
        · exact ⟨[], c :: rest, after, rfl, hm⟩
        · have hlt : after.length ≤ fuel :=
            Nat.lt_succ_iff.mp
              (lt_of_lt_of_le (matchRecordFrom_length _ _ _ _ _ hm) (Nat.succ_le_succ hlen))
          obtain ⟨pre, suf, after2, heq, hmt⟩ := ih after hlt r hmem
          obtain ⟨seg, hseg, _⟩ := matchRecordFrom_split _ _ _ _ _ hm
          refine ⟨seg ++ pre, suf, after2, ?_, hmt⟩
          rw [hseg, heq, List.append_assoc]

/-- C6: the record selector emits exactly the raw regex matches whose
(uppercase-normalized) type is of interest, in source order; every raw match
arises from an occurrence of the record shape in the text; and on a concrete
mixed input, malformed text and out-of-interest records are skipped silently
while matching records appear in source order. -/
theorem claim_C6 (s : String) :
    scan_ifc_and_extract_lines s = (rawScan s).filter (fun r => isOfInterest r.2.1) ∧
    (∀ r ∈ rawScan s, RecordShapeIn s r) ∧
    scan_ifc_and_extract_lines
      "junk #5=ifcWall('a','b'); #6 = NOTATYPE(x); #7 = IFCDOOR('c','d');" =
      [(5, "IFCWALL", "'a','b'"), (7, "IFCDOOR", "'c','d'")] := by
  refine ⟨scanAux_eq_filter s.data.length s.data, ?_, by decide⟩
  intro r hr
  obtain ⟨pre, suf, after, heq, hmt⟩ := rawScanAux_shape s.data.length s.data le_rfl r hr
  obtain ⟨ds, w1, w2, ident, w3, hsuf, hne, hdig, hval, hine, hword, hty, hw1, hw2, hw3⟩ :=
    matchRecordFrom_decomp suf r.1 r.2.1 r.2.2 after hmt
  exact ⟨pre, ds, w1, w2, ident, w3, after, by rw [heq, hsuf], hne, hdig, hval, hine, hword,
    hty, hw1, hw2, hw3⟩

/-- C6 witness: the record shape extracted for a concrete record. -/
theorem claim_C6_witness :
    RecordShapeIn "#1 = IFCWALL('a','b');" (1, "IFCWALL", "'a','b'") :=
  (claim_C6 "#1 = IFCWALL('a','b');").2.1 (1, "IFCWALL", "'a','b'") (by decide)

end IfcAdapter
